import Mathlib

/-!
# BLEEP consensus & sharding core — verification development

Shallow embedding of the consensus and sharding core of the BLEEP node
(crates `bleep-core`, `bleep-consensus`, `bleep-state`, `bleep-crypto`),
together with proofs and refutations of the specified properties.

Modelling conventions:
* Rust `f64` values (reputations, stakes, reliabilities, loads compared as
  floats) are embedded as `ℚ`; every constant appearing in the source
  (0.6, 0.8, 0.75, 0.66, 0.85, …) is an exact decimal, and the comparisons
  the properties turn on are far from the rounding error of `f64`.
* Rust `HashMap` iteration order is unspecified; maps are embedded as
  association lists whose order stands for the iteration order, and
  theorems quantify over that order where it matters.
* External collaborators (networking, persistence, the AI engine, the
  quantum-secure cipher) are parameters of the embedded functions, exactly
  as the source treats them as injected modules.
-/

namespace BLEEP

/-! ## Transactions (bleep-state `crate::transaction::Transaction`, as
constructed in bleep-state/src/tests.rs: id, from, to, amount) -/

structure Transaction where
  id : Nat
  sender : String
  receiver : String
  amount : Nat
deriving DecidableEq, Repr

/-! ## Sharding (bleep-state/src/sharding.rs) -/

namespace Sharding

/-- `BLEEPShard` from sharding.rs: `shard_id`, FIFO `transactions`
(`VecDeque`, head = front), and the `load` counter.  The
`quantum_security` handle is external state and enters the embedding as
the `decEnc` parameter of the operations that use it. -/
structure Shard where
  shard_id : Nat
  transactions : List Transaction
  load : Nat
deriving DecidableEq, Repr

/-- The invariant stated by the spec: `load == |pending_transactions|`. -/
def shardInv (s : Shard) : Prop :=
  s.load = s.transactions.length

instance (s : Shard) : Decidable (shardInv s) := by
  unfold shardInv; infer_instance

/-- `load_data.iter().cloned().reduce(f64::min).unwrap_or(0.0)` from
`predict_least_loaded_shard`: minimum of the shards' loads, `0` when the
shard map is empty.  Loads are `usize` cast exactly to `f64` in the
source, so `Nat` ordering is the same ordering. -/
def minLoad (shards : List Shard) : Nat :=
  match shards.map Shard.load with
  | [] => 0
  | l :: ls => ls.foldl Nat.min l

/-- `BLEEPShardingModule::predict_least_loaded_shard`: the first shard in
map-iteration order whose load equals the minimum load; `none` embeds the
`PredictionError` branch.  The list order is the `HashMap` iteration
order. -/
def predict_least_loaded_shard (shards : List Shard) : Option Nat :=
  (shards.find? fun s => s.load = minLoad shards).map Shard.shard_id

/-- Append a transaction to a shard and bump its load, as the body of
`assign_transaction` does under the lock. -/
def pushTx (s : Shard) (tx : Transaction) : Shard :=
  { s with transactions := s.transactions ++ [tx], load := s.load + 1 }

/-- `BLEEPShardingModule::assign_transaction`: pick the least-loaded shard,
push the transaction, bump the load.  Persistence is external I/O; the
`load > load_threshold` branch only calls `monitor_and_auto_rebalance`,
which returns without touching any shard while the 60 s cooldown that
starts at construction has not elapsed. -/
def assign_transaction (shards : List Shard) (tx : Transaction) :
    Option (List Shard) :=
  match predict_least_loaded_shard shards with
  | none => none
  | some sid =>
      some (shards.map fun s =>
        if s.shard_id = sid then pushTx s tx else s)

/-- `BLEEPShardingModule::rebalance_shards` acting on the two locked
shards.  `decEnc tx` is the composite of
`source.quantum_security.encrypt_transaction` and
`target.quantum_security.decrypt_transaction` (external Kyber/AES cipher):
`some` is the `Ok` branch, `none` the failed-decrypt branch, which only
logs.  On success the decrypted transaction is pushed to the back of the
target and the front of the source is popped; the `load` fields are not
touched by the source. -/
def rebalance_shards (decEnc : Transaction → Option Transaction)
    (source target : Shard) : Shard × Shard :=
  match source.transactions with
  | [] => (source, target)
  | tx :: rest =>
      match decEnc tx with
      | some dtx =>
          ({ source with transactions := rest },
           { target with transactions := target.transactions ++ [dtx] })
      | none => (source, target)

/-- `BLEEPShardingModule::load_shard_state` acting on one shard: replace
the queue by the persisted list and set `load` to its length. -/
def load_shard_state (s : Shard) (txs : List Transaction) : Shard :=
  { s with transactions := txs, load := txs.length }

/-- Replace the shard stored under `sid` in the module's map. -/
def updateShard (shards : List Shard) (sid : Nat) (s' : Shard) :
    List Shard :=
  shards.map fun s => if s.shard_id = sid then s' else s

/-- Look a shard up by id (`self.shards.get(&id)`). -/
def findShard (shards : List Shard) (sid : Nat) : Option Shard :=
  shards.find? fun s => s.shard_id = sid

/-- One `rebalance_shards(source_id, target_id)` call at the module level.
The caller (`monitor_and_auto_rebalance`) only invokes it when
`source_id != target_id`; with equal ids the source would deadlock on the
second lock, so the embedding leaves the map unchanged there. -/
def rebalanceModule (decEnc : Transaction → Option Transaction)
    (shards : List Shard) (sid tid : Nat) : List Shard :=
  if sid = tid then shards else
  match findShard shards sid, findShard shards tid with
  | some s, some t =>
      let p := rebalance_shards decEnc s t
      updateShard (updateShard shards sid p.1) tid p.2
  | _, _ => shards

/-- A sequence of module-level rebalance moves. -/
def rebalanceSeq (decEnc : Transaction → Option Transaction)
    (shards : List Shard) (moves : List (Nat × Nat)) : List Shard :=
  moves.foldl (fun ss mv => rebalanceModule decEnc ss mv.1 mv.2) shards

/-- The multiset union of all shards' pending transactions. -/
def poolOf (shards : List Shard) : Multiset Transaction :=
  shards.foldr (fun s acc => (s.transactions : Multiset Transaction) + acc) 0

end Sharding

/-! ## Adaptive consensus (bleep-consensus/src/consensus.rs) -/

namespace Consensus

/-- `ConsensusMode` from consensus.rs. -/
inductive ConsensusMode where
  | PoS
  | PBFT
  | PoW
deriving DecidableEq, Repr

/-- `Validator` from consensus.rs (`reputation: f64` embedded as `ℚ`,
`stake: u64`, `latency: u64`). -/
structure Validator where
  id : String
  reputation : ℚ
  latency : Nat
  stake : Nat
  active : Bool
  last_signed_block : Nat
deriving DecidableEq, Repr

/-- The `validators: HashMap<String, Validator>` field, embedded as an
association list in iteration order (keys unique). -/
abbrev ValidatorMap := List (String × Validator)

/-- Stable insertion of a validator into a stake-descending list: the
element goes before the first strictly smaller stake, which is what
`sort_by(|a, b| b.stake.cmp(&a.stake))` (a stable sort) produces. -/
def insertByStakeDesc (v : Validator) : List Validator → List Validator
  | [] => [v]
  | w :: ws =>
      if w.stake < v.stake then v :: w :: ws
      else w :: insertByStakeDesc v ws

/-- `validators_sorted` in `pos_algorithm`: all validators (no filter of
any kind), stably sorted by decreasing stake. -/
def sortByStakeDesc : List Validator → List Validator
  | [] => []
  | v :: vs => insertByStakeDesc v (sortByStakeDesc vs)

/-- The validator `pos_algorithm` selects: the head of the
stake-descending sort, i.e. the first validator of maximal stake in
iteration order. -/
def pos_selected (vs : List Validator) : Option Validator :=
  (sortByStakeDesc vs).head?

/-- `BLEEPAdaptiveConsensus::pos_algorithm`: finalize iff the selected
validator has `reputation > 0.8`.  `state.add_block` (the crate's
`BlockchainState` wrapper around `bleep_core::state`) unconditionally
pushes and returns `Ok`, so the `is_ok()` in the source is `true`. -/
def pos_algorithm (validators : ValidatorMap) : Bool :=
  match pos_selected (validators.map Prod.snd) with
  | some v => decide (v.reputation > 8/10)
  | none => false

/-- Rust `Iterator::max_by` on stakes: the maximum, the LAST maximal
element on ties. -/
def max_by_stake : List Validator → Option Validator
  | [] => none
  | v :: vs =>
      match max_by_stake vs with
      | none => some v
      | some w => if v.stake > w.stake then some v else some w

/-- `BLEEPAdaptiveConsensus::select_pbft_leader`: highest-stake validator
among `{active ∧ reputation > 0.7}`, `none` when that set is empty. -/
def select_pbft_leader (validators : ValidatorMap) : Option Validator :=
  let eligible := (validators.map Prod.snd).filter
    fun v => v.active && decide (v.reputation > 7/10)
  max_by_stake eligible

/-- `BLEEPAdaptiveConsensus::collect_votes`: the ids of all validators
with `reputation > 0.75`.  The `phase` argument is only interpolated into
a log line; no network interaction occurs. -/
def collect_votes (validators : ValidatorMap) (phase : String) :
    List String :=
  (validators.filter fun kv => decide (kv.2.reputation > 3/4)).map Prod.fst

/-- `has_quorum`'s required vote count,
`(validators.len() as f64 * 0.66).ceil() as usize`, in exact arithmetic.
(For `n` a positive multiple of 50 the `f64` product `0.66 * n` rounds
just above the integer it denotes and the source ceiling is one larger
than the exact one; no property below depends on such an `n`.) -/
def requiredVotes (n : Nat) : Nat :=
  (Int.ceil ((66 * n : ℚ) / 100)).toNat

/-- `BLEEPAdaptiveConsensus::has_quorum`. -/
def has_quorum (validators : ValidatorMap) (votes : List String) : Bool :=
  decide (votes.length ≥ requiredVotes validators.length)

/-- `BLEEPAdaptiveConsensus::pbft_algorithm`.  `broadcastOk` is the
external networking module's `broadcast_proposal` result; `add_block`
always succeeds (see `pos_algorithm`). -/
def pbft_algorithm (validators : ValidatorMap) (broadcastOk : Bool) :
    Bool :=
  match select_pbft_leader validators with
  | none => false
  | some _ =>
      if !broadcastOk then false
      else
        let prepare_votes := collect_votes validators "prepare"
        if !has_quorum validators prepare_votes then false
        else
          let commit_votes := collect_votes validators "commit"
          if has_quorum validators commit_votes then true else false

/-- `BLEEPAdaptiveConsensus::switch_consensus_mode`: set the mode to the
AI engine's predicted mode (a no-op when they already agree, which yields
the same state). -/
def switch_consensus_mode (predicted current : ConsensusMode) :
    ConsensusMode :=
  if current ≠ predicted then predicted else current

/-- `BLEEPAdaptiveConsensus::finalize_block`, fuel-indexed.  `attempt m`
abstracts the success of one finalization attempt under mode `m` (the
`match` over pos/pbft/pow for the fixed block and state); `predicted` is
`ai_engine.predict_consensus(50, 40)`, constant because the source passes
the literals 50 and 40.  The source returns `Ok(())` on success and
otherwise switches the mode and recurses on the same block — it
constructs no error value; `none` means the recursion is still running
when the fuel runs out. -/
def finalizeBlockFuel (attempt : ConsensusMode → Bool)
    (predicted : ConsensusMode) : Nat → ConsensusMode → Option Unit
  | 0, _ => none
  | n + 1, m =>
      if attempt m then some ()
      else finalizeBlockFuel attempt predicted n
        (switch_consensus_mode predicted m)

/-- Number of finalization attempts `finalize_block` performs within the
given fuel. -/
def finalizeAttempts (attempt : ConsensusMode → Bool)
    (predicted : ConsensusMode) : Nat → ConsensusMode → Nat
  | 0, _ => 0
  | n + 1, m =>
      if attempt m then 1
      else 1 + finalizeAttempts attempt predicted n
        (switch_consensus_mode predicted m)

end Consensus

/-! ## Chain state (bleep-core/src/block.rs, state.rs, blockchain.rs,
block_validation.rs) -/

namespace Core

/-- `Block` from bleep-core/src/block.rs.  Hashes are strings (hex) in
the source; signature and proof bytes are opaque. -/
structure Block where
  index : Nat
  timestamp : Nat
  transactions : List Transaction
  previous_hash : String
  merkle_root : String
  validator_signature : List Nat
  zk_proof : List Nat
deriving DecidableEq, Repr

/-- The external collaborators of block validation: `compute_hash`
(SHA3-256 over index/timestamp/previous_hash/merkle_root), SPHINCS+
signature verification, Kyber ZKP verification, the AI anomaly detector
(`ai_validate` returns `!anomaly_detected`) and peer-network validation.
All are injected modules in the source. -/
structure ValidationEnv where
  compute_hash : Block → String
  verify_signature : Block → Bool
  verify_zkp : Block → Bool
  anomaly_detected : Block → Bool
  network_validate : Block → Bool

/-- `BlockValidator::validate_block`: signature then ZKP. -/
def validate_block (env : ValidationEnv) (b : Block) : Bool :=
  if !env.verify_signature b then false
  else if !env.verify_zkp b then false
  else true

/-- `BlockValidator::ai_validate`. -/
def ai_validate (env : ValidationEnv) (b : Block) : Bool :=
  !env.anomaly_detected b

/-- `BlockValidator::validate_block_link`: the new block's
`previous_hash` must equal the previous block's computed hash. -/
def validate_block_link (env : ValidationEnv) (prev cur : Block) : Bool :=
  cur.previous_hash == env.compute_hash prev

/-- `BlockValidator::validate_full_block`: integrity ∧ AI ∧ link ∧
network. -/
def validate_full_block (env : ValidationEnv) (prev b : Block) : Bool :=
  validate_block env b && ai_validate env b &&
    validate_block_link env prev b && env.network_validate b

/-- `BlockchainState::add_block` from bleep-core/src/state.rs: push the
block unconditionally and return `true`. -/
def state_add_block (blocks : List Block) (b : Block) :
    List Block × Bool :=
  (blocks ++ [b], true)

/-- `Blockchain::add_block` from bleep-core/src/blockchain.rs: validate
the new block against the last block of the chain (`chain.back()`,
non-empty from the genesis constructor; the empty case embeds the
source's panic as a rejection and is never reached in the theorems) and
push it only when `validate_full_block` passes. -/
def blockchain_add_block (env : ValidationEnv) (chain : List Block)
    (b : Block) : List Block × Bool :=
  match chain.getLast? with
  | none => (chain, false)
  | some last =>
      if validate_full_block env last b then (chain ++ [b], true)
      else (chain, false)

/-- The chain-link invariant of the spec: each block after the first
carries the computed hash of its predecessor. -/
def chainLinked (env : ValidationEnv) : List Block → Prop
  | [] => True
  | [_] => True
  | a :: b :: rest =>
      b.previous_hash = env.compute_hash a ∧ chainLinked env (b :: rest)

instance (env : ValidationEnv) : (l : List Block) →
    Decidable (chainLinked env l)
  | [] => .isTrue trivial
  | [_] => .isTrue trivial
  | a :: b :: rest =>
      @instDecidableAnd _ _ _ (instDecidableChainLinked env (b :: rest))

end Core

/-! ## AI-adaptive logic (bleep-consensus/src/ai_adaptive_logic.rs) -/

namespace AIAdaptive

open Consensus (ConsensusMode)

/-- `Validator` from ai_adaptive_logic.rs (reputation and stake are
`f64`, embedded as `ℚ`; latency is `u64`). -/
structure Validator where
  reputation : ℚ
  latency : Nat
  stake : ℚ
deriving DecidableEq, Repr

/-- The score `adjust_validators` computes for one validator:
`reputation * 0.8 - latency * 0.2 + stake * 0.05`. -/
def scoreOf (v : Validator) : ℚ :=
  v.reputation * (8/10) - (v.latency : ℚ) * (2/10) + v.stake * (5/100)

/-- The per-validator body of
`AIAdaptiveConsensus::adjust_validators`. -/
def adjustValidator (v : Validator) : Validator :=
  if scoreOf v < 1/2 then
    { v with reputation := v.reputation * (85/100),
             stake := v.stake * (95/100) }
  else
    { v with reputation := v.reputation * (11/10),
             stake := v.stake * (105/100) }

/-- `AIAdaptiveConsensus::adjust_validators` over the whole map
(`iter_mut` touches every validator). -/
def adjust_validators (vs : List (String × Validator)) :
    List (String × Validator) :=
  vs.map fun kv => (kv.1, adjustValidator kv.2)

/-- Modelled from the spec: the predictive scoring collaborator.  The
source delegates `predict_best_consensus`'s reliability estimate to the
external `linfa` nearest-neighbour model (not part of this repository);
the spec treats it as `predict(samples) -> reliability` by
nearest-neighbour.  The estimate at query load `x` is the reliability of
the sample whose load is nearest to `x` (earliest sample on ties). -/
def nearestReliability (loads : List ℚ) (rels : List ℚ) (x : ℚ) : ℚ :=
  match loads, rels with
  | l :: ls, r :: rs =>
      let rest := nearestReliability ls rs x
      match ls, rs with
      | _ :: _, _ :: _ =>
          let dBest := |((nearestLoad ls x : ℚ)) - x|
          if |l - x| ≤ dBest then r else rest
      | _, _ => r
  | _, _ => 0
where
  /-- The load of the nearest sample, used to compare distances. -/
  nearestLoad : List ℚ → ℚ → ℚ
    | [], _ => 0
    | [l], _ => l
    | l :: l' :: ls, x =>
        let rest := nearestLoad (l' :: ls) x
        if |l - x| ≤ |rest - x| then l else rest

/-- The threshold `match` at the end of
`AIAdaptiveConsensus::predict_best_consensus`: `r < 0.6 → PoW`,
`r < 0.8 → PBFT`, otherwise `PoS`. -/
def modeOfReliability (r : ℚ) : ConsensusMode :=
  if r < 6/10 then ConsensusMode.PoW
  else if r < 8/10 then ConsensusMode.PBFT
  else ConsensusMode.PoS

/-- Metrics state of `AIAdaptiveConsensus`: the three appended histories
and the current mode. -/
structure MetricsState where
  consensus_mode : ConsensusMode
  network_load : List ℚ
  average_latency : List Nat
  reliability : List ℚ
  validators : List (String × Validator)

/-- `AIAdaptiveConsensus::predict_best_consensus`: `PoS` for an empty
history, otherwise the thresholded reliability predicted at the latest
load. -/
def predict_best_consensus (st : MetricsState) : ConsensusMode :=
  match st.network_load.getLast? with
  | none => ConsensusMode.PoS
  | some latest =>
      modeOfReliability
        (nearestReliability st.network_load st.reliability latest)

/-- `AIAdaptiveConsensus::collect_metrics`. -/
def collect_metrics (st : MetricsState) (load : ℚ) (latency : Nat)
    (rel : ℚ) : MetricsState :=
  { st with network_load := st.network_load ++ [load],
            average_latency := st.average_latency ++ [latency],
            reliability := st.reliability ++ [rel] }

/-- `AIAdaptiveConsensus::run_adaptive_logic`: collect the sample, adopt
the recommended mode when it differs, adjust every validator. -/
def run_adaptive_logic (st : MetricsState) (load : ℚ) (latency : Nat)
    (rel : ℚ) : MetricsState :=
  let st1 := collect_metrics st load latency rel
  let recommended := predict_best_consensus st1
  let st2 :=
    if st1.consensus_mode ≠ recommended then
      { st1 with consensus_mode := recommended }
    else st1
  { st2 with validators := adjust_validators st2.validators }

/-- `AIAdaptiveConsensus::new`: mode `PoS`, empty histories. -/
def initState (vs : List (String × Validator)) : MetricsState :=
  { consensus_mode := ConsensusMode.PoS, network_load := [],
    average_latency := [], reliability := [], validators := vs }

end AIAdaptive

/-! ## Concrete instances used by the closed theorems -/

namespace Examples

def txA : Transaction := ⟨1, "Alice", "Bob", 50⟩

def txB : Transaction := ⟨2, "Bob", "Charlie", 100⟩

/-- An empty shard with the given id. -/
def emptyShard (i : Nat) : Sharding.Shard := ⟨i, [], 0⟩

/-- A source shard holding one pending transaction (invariant holds). -/
def srcShard : Sharding.Shard := ⟨0, [txA], 1⟩

def tgtShard : Sharding.Shard := ⟨1, [], 0⟩

/-- The cipher round trip in the success case: `decrypt_transaction`
returns the transaction that was encrypted, as the crypto crate's
round-trip test `test_quantum_secure_encryption` asserts. -/
def idCipher : Transaction → Option Transaction := fun tx => some tx

/-- A cipher whose decrypt step always fails. -/
def failCipher : Transaction → Option Transaction := fun _ => none

/-- An inactive validator with top stake and high reputation. -/
def inactiveWhale : Consensus.Validator :=
  { id := "v1", reputation := 9/10, latency := 0, stake := 100,
    active := false, last_signed_block := 0 }

/-- An active, eligible validator. -/
def activeLeader : Consensus.Validator :=
  { id := "a", reputation := 9/10, latency := 10, stake := 50,
    active := true, last_signed_block := 0 }

/-- A validation environment whose external checks all pass and whose
hash function is constantly `"h0"`. -/
def envX : Core.ValidationEnv :=
  { compute_hash := fun _ => "h0", verify_signature := fun _ => true,
    verify_zkp := fun _ => true, anomaly_detected := fun _ => false,
    network_validate := fun _ => true }

def genesisB : Core.Block := ⟨0, 0, [], "", "", [], []⟩

/-- A block whose `previous_hash` does not match `envX`'s hash of any
block. -/
def badB : Core.Block := ⟨1, 1, [], "mismatch", "", [], []⟩

/-- A block correctly linked (under `envX`) to `genesisB`. -/
def goodB : Core.Block := ⟨1, 1, [], "h0", "", [], []⟩

end Examples

/-! ## Theorems -/

/-- C3: failing input for the shard-load invariant.  Both shards satisfy
`load == |pending_transactions|` before the move; a successful
`rebalance_shards` move (cipher round trip succeeding, as the crypto
round-trip test guarantees) transfers the transaction but leaves both
`load` fields untouched, so the invariant fails on both shards
afterwards — while `assign_transaction` and `load_shard_state` do keep
it, showing the stale `load` in `rebalance_shards` is the slip. -/
theorem C3_rebalance_leaves_load_stale :
    Sharding.shardInv Examples.srcShard ∧ Sharding.shardInv Examples.tgtShard ∧
    (Sharding.rebalance_shards Examples.idCipher Examples.srcShard Examples.tgtShard).1.transactions = [] ∧
    (Sharding.rebalance_shards Examples.idCipher Examples.srcShard Examples.tgtShard).1.load = 1 ∧
    (Sharding.rebalance_shards Examples.idCipher Examples.srcShard Examples.tgtShard).2.transactions = [Examples.txA] ∧
    (Sharding.rebalance_shards Examples.idCipher Examples.srcShard Examples.tgtShard).2.load = 0 ∧
    ¬ Sharding.shardInv (Sharding.rebalance_shards Examples.idCipher Examples.srcShard Examples.tgtShard).1 ∧
    ¬ Sharding.shardInv (Sharding.rebalance_shards Examples.idCipher Examples.srcShard Examples.tgtShard).2 := by
  decide

/-- C6: a rebalance move whose decrypt-and-validate step under the
target shard's context fails leaves both shards exactly as they were:
the transaction is still at the front of the source queue, the source
load is unchanged, and nothing is lost or duplicated.  (The source only
logs the failure with `error!` and returns — no panic, no propagated
error.) -/
theorem C6_failed_move_leaves_source_unchanged
    (decEnc : Transaction → Option Transaction)
    (src tgt : Sharding.Shard) (tx : Transaction)
    (rest : List Transaction)
    (hq : src.transactions = tx :: rest)
    (hfail : decEnc tx = none) :
    Sharding.rebalance_shards decEnc src tgt = (src, tgt) ∧
    (Sharding.rebalance_shards decEnc src tgt).1.transactions.head? = some tx ∧
    (Sharding.rebalance_shards decEnc src tgt).1.load = src.load := by
  have h : Sharding.rebalance_shards decEnc src tgt = (src, tgt) := by
    simp only [Sharding.rebalance_shards, hq, hfail]
  refine ⟨h, ?_, ?_⟩
  · rw [h]
    simp [hq]
  · rw [h]

/-- C6 witness: the failed move on the concrete one-transaction source
shard. -/
theorem C6_failed_move_witness :
    Sharding.rebalance_shards Examples.failCipher Examples.srcShard Examples.tgtShard
      = (Examples.srcShard, Examples.tgtShard) ∧
    (Sharding.rebalance_shards Examples.failCipher Examples.srcShard Examples.tgtShard).1.transactions.head?
      = some Examples.txA ∧
    (Sharding.rebalance_shards Examples.failCipher Examples.srcShard Examples.tgtShard).1.load
      = Examples.srcShard.load :=
  C6_failed_move_leaves_source_unchanged Examples.failCipher
    Examples.srcShard Examples.tgtShard Examples.txA [] rfl rfl

/-- C8: the deterministic scoring rule of `adjust_validators`: the score
is `reputation*0.8 − latency*0.2 + stake*0.05`; a score below 0.5 takes
the penalty branch (reputation ×0.85, stake ×0.95), otherwise the reward
branch (reputation ×1.1, stake ×1.05); and the validator
`reputation=0.8, latency=30, stake=1000` scores `44.64 = 1116/25`, takes
the reward branch, and ends with reputation `0.88 = 22/25` and stake
`1050`. -/
theorem C8_scoring_rule (v : AIAdaptive.Validator) :
    (AIAdaptive.scoreOf v
        = v.reputation * (8/10) - (v.latency : ℚ) * (2/10) + v.stake * (5/100)) ∧
    (AIAdaptive.scoreOf v < 1/2 →
      AIAdaptive.adjustValidator v
        = ⟨v.reputation * (85/100), v.latency, v.stake * (95/100)⟩) ∧
    (¬ AIAdaptive.scoreOf v < 1/2 →
      AIAdaptive.adjustValidator v
        = ⟨v.reputation * (11/10), v.latency, v.stake * (105/100)⟩) ∧
    AIAdaptive.scoreOf ⟨8/10, 30, 1000⟩ = 1116/25 ∧
    ¬ AIAdaptive.scoreOf ⟨8/10, 30, 1000⟩ < 1/2 ∧
    AIAdaptive.adjustValidator ⟨8/10, 30, 1000⟩ = ⟨22/25, 30, 1050⟩ := by
  have hsc : AIAdaptive.scoreOf ⟨8/10, 30, 1000⟩ = 1116/25 := by
    norm_num [AIAdaptive.scoreOf]
  have hge : ¬ AIAdaptive.scoreOf ⟨8/10, 30, 1000⟩ < 1/2 := by
    rw [hsc]; norm_num
  refine ⟨rfl, ?_, ?_, hsc, hge, ?_⟩
  · intro h
    unfold AIAdaptive.adjustValidator
    rw [if_pos h]
  · intro h
    unfold AIAdaptive.adjustValidator
    rw [if_neg h]
  · unfold AIAdaptive.adjustValidator
    rw [if_neg hge]
    norm_num

/-- C8 witness: a low-scoring validator (`reputation=0.1, latency=10,
stake=0`, score `-1.92`) takes the penalty branch. -/
theorem C8_scoring_rule_witness :
    AIAdaptive.adjustValidator ⟨1/10, 10, 0⟩
      = ⟨(1/10 : ℚ) * (85/100), 10, (0 : ℚ) * (95/100)⟩ :=
  (C8_scoring_rule ⟨1/10, 10, 0⟩).2.1 (by norm_num [AIAdaptive.scoreOf])

/-- C2 counterexample: with an attempt function that fails under every
mode (e.g. no validator passes the reputation bars and the PoW nonce
bound is exhausted), `finalize_block` has performed five finalization
attempts within fuel 5 — not at most two — and has still not returned
anything to the caller, let alone a `FinalizationFailed` error. -/
theorem C2_counterexample_unbounded_retry :
    Consensus.finalizeAttempts (fun _ => false) Consensus.ConsensusMode.PoS
        5 Consensus.ConsensusMode.PoS = 5 ∧
    ¬ Consensus.finalizeAttempts (fun _ => false) Consensus.ConsensusMode.PoS
        5 Consensus.ConsensusMode.PoS ≤ 2 ∧
    Consensus.finalizeBlockFuel (fun _ => false) Consensus.ConsensusMode.PoS
        5 Consensus.ConsensusMode.PoS = none := by
  decide

/-- The AI-predicted mode is adopted whether or not it differs from the
current one: `switch_consensus_mode` always lands on the predicted
mode. -/
theorem switch_consensus_mode_eq (predicted m : Consensus.ConsensusMode) :
    Consensus.switch_consensus_mode predicted m = predicted := by
  unfold Consensus.switch_consensus_mode
  by_cases h : m = predicted
  · simp [h]
  · simp [h]

/-- Once the mode has reached the (constant) predicted mode, an
always-failing predicted-mode attempt keeps the recursion running for
the whole fuel, one attempt per unit of fuel. -/
theorem finalize_stuck_at_predicted (attempt : Consensus.ConsensusMode → Bool)
    (predicted : Consensus.ConsensusMode)
    (hfail : attempt predicted = false) :
    ∀ n, Consensus.finalizeBlockFuel attempt predicted n predicted = none ∧
      Consensus.finalizeAttempts attempt predicted n predicted = n := by
  intro n
  induction n with
  | zero => exact ⟨rfl, rfl⟩
  | succ k ih =>
      constructor
      · simp only [Consensus.finalizeBlockFuel, hfail, Bool.false_eq_true,
          if_false, switch_consensus_mode_eq]
        exact ih.1
      · simp only [Consensus.finalizeAttempts, hfail, Bool.false_eq_true,
          if_false, switch_consensus_mode_eq]
        rw [ih.2]
        omega

/-- C2 (amended): on a failed attempt `finalize_block` re-consults the
mode selector — whose inputs are the literals `(50, 40)`, so the
re-selected mode is one constant mode — and retries the same block under
it, recursing without bound: a call returns `Ok` after one attempt when
the current mode's attempt succeeds, after exactly two attempts when the
re-selected mode's attempt succeeds, and otherwise keeps retrying
forever (one attempt per unit of fuel) without ever surfacing an error
to the caller. -/
theorem C2_amended_retry_unbounded (attempt : Consensus.ConsensusMode → Bool)
    (predicted m : Consensus.ConsensusMode) (n : Nat) :
    (attempt m = true →
      Consensus.finalizeBlockFuel attempt predicted (n + 1) m = some () ∧
      Consensus.finalizeAttempts attempt predicted (n + 1) m = 1) ∧
    (attempt m = false → attempt predicted = true →
      Consensus.finalizeBlockFuel attempt predicted (n + 2) m = some () ∧
      Consensus.finalizeAttempts attempt predicted (n + 2) m = 2) ∧
    (attempt m = false → attempt predicted = false →
      Consensus.finalizeBlockFuel attempt predicted n m = none ∧
      Consensus.finalizeAttempts attempt predicted n m = n) := by
  refine ⟨?_, ?_, ?_⟩
  · intro h
    constructor
    · simp [Consensus.finalizeBlockFuel, h]
    · simp [Consensus.finalizeAttempts, h]
  · intro hm hp
    constructor
    · simp [Consensus.finalizeBlockFuel, hm, hp, switch_consensus_mode_eq]
    · simp [Consensus.finalizeAttempts, hm, hp, switch_consensus_mode_eq]
  · intro hm hp
    cases n with
    | zero => exact ⟨rfl, rfl⟩
    | succ k =>
        constructor
        · simp only [Consensus.finalizeBlockFuel, hm, Bool.false_eq_true,
            if_false, switch_consensus_mode_eq]
          exact (finalize_stuck_at_predicted attempt predicted hp k).1
        · simp only [Consensus.finalizeAttempts, hm, Bool.false_eq_true,
            if_false, switch_consensus_mode_eq]
          rw [(finalize_stuck_at_predicted attempt predicted hp k).2]
          omega

/-- C2 witness: with only the PBFT attempt succeeding and PBFT as the
re-selected mode, a call starting in PoS finalizes after exactly two
attempts within fuel 3. -/
theorem C2_amended_retry_witness :
    Consensus.finalizeBlockFuel (fun m => m = Consensus.ConsensusMode.PBFT)
        Consensus.ConsensusMode.PBFT 3 Consensus.ConsensusMode.PoS = some () ∧
    Consensus.finalizeAttempts (fun m => m = Consensus.ConsensusMode.PBFT)
        Consensus.ConsensusMode.PBFT 3 Consensus.ConsensusMode.PoS = 2 :=
  (C2_amended_retry_unbounded (fun m => m = Consensus.ConsensusMode.PBFT)
    Consensus.ConsensusMode.PBFT Consensus.ConsensusMode.PoS 1).2.1
    (by decide) (by decide)

/-- C5 counterexample: a map holding a single inactive validator with
stake 100 and reputation 0.9.  `pos_algorithm` selects it (the
stake-descending sort never consults `active`) and finalizes the block,
and `collect_votes` counts its id toward the quorum, which is then
reached — an inactive validator both selected as leader and counted
toward a PBFT quorum. -/
theorem C5_counterexample_inactive_counted :
    Examples.inactiveWhale.active = false ∧
    Consensus.pos_selected [Examples.inactiveWhale] = some Examples.inactiveWhale ∧
    Consensus.pos_algorithm [("v1", Examples.inactiveWhale)] = true ∧
    Consensus.collect_votes [("v1", Examples.inactiveWhale)] "prepare" = ["v1"] ∧
    Consensus.has_quorum [("v1", Examples.inactiveWhale)]
      (Consensus.collect_votes [("v1", Examples.inactiveWhale)] "prepare") = true := by
  have hvotes :
      Consensus.collect_votes [("v1", Examples.inactiveWhale)] "prepare" = ["v1"] := by
    simp only [Consensus.collect_votes, Examples.inactiveWhale, List.filter]
    norm_num
  refine ⟨rfl, rfl, ?_, hvotes, ?_⟩
  · simp only [Consensus.pos_algorithm, Consensus.pos_selected,
      Consensus.sortByStakeDesc, Consensus.insertByStakeDesc, List.map,
      List.head?, Examples.inactiveWhale]
    norm_num
  · rw [hvotes]
    simp only [Consensus.has_quorum, Consensus.requiredVotes]
    norm_num [Int.ceil_le]

/-- C9 counterexample: four empty shards whose map-iteration order is
`[3, 2, 1, 0]`.  All four are tied at the minimum load 0, and
`predict_least_loaded_shard` returns shard 3 — the first in iteration
order — not the lowest id 0.  The tie-break is the `HashMap`'s
unspecified iteration order, not the lowest `shard_id`. -/
theorem C9_counterexample_tiebreak :
    Sharding.minLoad
      [Examples.emptyShard 3, Examples.emptyShard 2,
       Examples.emptyShard 1, Examples.emptyShard 0] = 0 ∧
    (Examples.emptyShard 0).load = 0 ∧
    Sharding.predict_least_loaded_shard
      [Examples.emptyShard 3, Examples.emptyShard 2,
       Examples.emptyShard 1, Examples.emptyShard 0] = some 3 ∧
    Sharding.predict_least_loaded_shard
      [Examples.emptyShard 3, Examples.emptyShard 2,
       Examples.emptyShard 1, Examples.emptyShard 0] ≠ some 0 := by
  decide

/-- C1 counterexample: `BlockchainState::add_block` (bleep-core
state.rs), the entry point the consensus algorithms use to apply a
finalized block, appends unconditionally: starting from a linked
one-block chain it adds a block whose `previous_hash` matches nothing
and reports success, leaving a chain that violates the chain-link
invariant. -/
theorem C1_counterexample_state_add_block :
    Core.chainLinked Examples.envX [Examples.genesisB] ∧
    Examples.badB.previous_hash ≠ Examples.envX.compute_hash Examples.genesisB ∧
    Core.state_add_block [Examples.genesisB] Examples.badB
      = ([Examples.genesisB, Examples.badB], true) ∧
    ¬ Core.chainLinked Examples.envX [Examples.genesisB, Examples.badB] := by
  refine ⟨trivial, by decide, rfl, ?_⟩
  intro h
  exact absurd h.1 (by decide)

/-- Appending a block whose `previous_hash` is the computed hash of the
chain's last block preserves the chain-link invariant. -/
theorem chainLinked_append (env : Core.ValidationEnv) :
    ∀ (chain : List Core.Block) (b last : Core.Block),
    chain.getLast? = some last → Core.chainLinked env chain →
    b.previous_hash = env.compute_hash last →
    Core.chainLinked env (chain ++ [b])
  | [], _, _, h, _, _ => by simp at h
  | [a], b, last, h, _, hb => by
      simp only [List.getLast?_singleton, Option.some.injEq] at h
      subst h
      exact ⟨hb, trivial⟩
  | a :: c :: rest, b, last, h, hl, hb => by
      have h' : (c :: rest).getLast? = some last := by
        simpa using h
      exact ⟨hl.1, chainLinked_append env (c :: rest) b last h' hl.2 hb⟩

/-- C1 (amended): `Blockchain::add_block` (bleep-core blockchain.rs)
preserves the chain-link invariant — a block whose `previous_hash` does
not equal the computed hash of the current last block fails
`validate_block_link`, hence full validation, and is not added — but
`BlockchainState::add_block` (bleep-core state.rs), the append entry
point used by the consensus finalization algorithms, pushes
unconditionally and does not enforce the invariant. -/
theorem C1_amended_blockchain_add_block_link (env : Core.ValidationEnv)
    (chain : List Core.Block) (b : Core.Block)
    (hl : Core.chainLinked env chain) :
    Core.chainLinked env (Core.blockchain_add_block env chain b).1 ∧
    (∀ last, chain.getLast? = some last →
      b.previous_hash ≠ env.compute_hash last →
      Core.blockchain_add_block env chain b = (chain, false)) := by
  constructor
  · cases hlast : chain.getLast? with
    | none =>
        simp only [Core.blockchain_add_block, hlast]
        exact hl
    | some last =>
        simp only [Core.blockchain_add_block, hlast]
        by_cases hv : Core.validate_full_block env last b = true
        · rw [if_pos hv]
          have hlink : Core.validate_block_link env last b = true := by
            simp only [Core.validate_full_block, Bool.and_eq_true] at hv
            exact hv.1.2
          have hprev : b.previous_hash = env.compute_hash last := by
            simpa [Core.validate_block_link] using hlink
          exact chainLinked_append env chain b last hlast hl hprev
        · rw [if_neg hv]
          exact hl
  · intro last hlast hneq
    have hlink : Core.validate_block_link env last b = false := by
      simp [Core.validate_block_link, hneq]
    have hv : Core.validate_full_block env last b = false := by
      simp [Core.validate_full_block, hlink]
    simp only [Core.blockchain_add_block, hlast, hv]
    simp

/-- C1 witness: under `envX`, the mismatching block `badB` is rejected
and the chain left unchanged, while adding the correctly linked block
`goodB` keeps the chain linked. -/
theorem C1_amended_blockchain_add_block_link_witness :
    Core.blockchain_add_block Examples.envX [Examples.genesisB] Examples.badB
      = ([Examples.genesisB], false) ∧
    Core.chainLinked Examples.envX
      (Core.blockchain_add_block Examples.envX [Examples.genesisB]
        Examples.goodB).1 :=
  ⟨(C1_amended_blockchain_add_block_link Examples.envX [Examples.genesisB]
      Examples.badB trivial).2 Examples.genesisB rfl (by decide),
   (C1_amended_blockchain_add_block_link Examples.envX [Examples.genesisB]
      Examples.goodB trivial).1⟩

/-- `Iterator::max_by` only returns an element of the list it runs
over. -/
theorem max_by_stake_mem :
    ∀ (l : List Consensus.Validator) (v : Consensus.Validator),
    Consensus.max_by_stake l = some v → v ∈ l
  | [], v, h => by simp [Consensus.max_by_stake] at h
  | w :: ws, v, h => by
      simp only [Consensus.max_by_stake] at h
      cases hm : Consensus.max_by_stake ws with
      | none =>
          rw [hm] at h
          simp at h
          subst h
          exact List.mem_cons_self _ _
      | some u =>
          rw [hm] at h
          have h' : (if w.stake > u.stake then some w else some u) = some v := h
          by_cases hs : w.stake > u.stake
          · rw [if_pos hs] at h'
            have hwv : w = v := by simpa using h'
            rw [← hwv]
            exact List.mem_cons_self _ _
          · rw [if_neg hs] at h'
            have huv : u = v := by simpa using h'
            exact List.mem_cons_of_mem _ (huv ▸ max_by_stake_mem ws u hm)

/-- Characterization of `collect_votes`: an id is voted exactly when its
validator's reputation exceeds 0.75 — for any phase, and with no
reference to the `active` flag. -/
theorem collect_votes_mem (validators : Consensus.ValidatorMap)
    (ph vid : String) :
    vid ∈ Consensus.collect_votes validators ph ↔
      ∃ w, (vid, w) ∈ validators ∧ w.reputation > 3/4 := by
  simp only [Consensus.collect_votes, List.mem_map, List.mem_filter]
  constructor
  · rintro ⟨⟨a, w⟩, ⟨hmem, hdec⟩, rfl⟩
    exact ⟨w, hmem, of_decide_eq_true hdec⟩
  · rintro ⟨w, hmem, hrep⟩
    exact ⟨(vid, w), ⟨hmem, decide_eq_true hrep⟩, rfl⟩

/-- C5 (amended): PBFT leader selection filters on
`active ∧ reputation > 0.7`, so it never selects an inactive validator;
but PoS selection and vote collection ignore the `active` flag — the PoS
sort ranks all validators and `collect_votes` counts every id with
reputation above 0.75 toward prepare/commit quorums, active or not. -/
theorem C5_amended_active_filtering (validators : Consensus.ValidatorMap)
    (v : Consensus.Validator) (ph vid : String) :
    (Consensus.select_pbft_leader validators = some v →
      v.active = true ∧ v.reputation > 7/10) ∧
    (vid ∈ Consensus.collect_votes validators ph ↔
      ∃ w, (vid, w) ∈ validators ∧ w.reputation > 3/4) := by
  constructor
  · intro h
    have hmem := max_by_stake_mem _ v h
    rw [List.mem_filter] at hmem
    have hp := hmem.2
    simp only [Bool.and_eq_true, decide_eq_true_eq] at hp
    exact hp
  · exact collect_votes_mem validators ph vid

/-- C5 witness: the concrete active validator is the selected PBFT
leader, and is active with reputation above 0.7. -/
theorem C5_amended_active_filtering_witness :
    Examples.activeLeader.active = true ∧
      Examples.activeLeader.reputation > 7/10 :=
  (C5_amended_active_filtering [("a", Examples.activeLeader)]
      Examples.activeLeader "prepare" "a").1
    (by
      have hrep : ((9:ℚ)/10 > 7/10) := by norm_num
      simp only [Consensus.select_pbft_leader, List.map, List.filter,
        Examples.activeLeader, decide_eq_true hrep]
      rfl)

/-- C10: `collect_votes` is a pure function of the validator map — it
returns exactly the ids with reputation above 0.75, for any phase string
and with no network interaction — so the prepare-phase and commit-phase
vote sets coincide, prepare quorum implies commit quorum, and a PBFT run
with a leader, a successful broadcast, and prepare quorum always
finalizes. -/
theorem C10_pbft_phase_equivalence (validators : Consensus.ValidatorMap)
    (ph1 ph2 vid : String) (broadcastOk : Bool) :
    Consensus.collect_votes validators ph1
      = Consensus.collect_votes validators ph2 ∧
    (vid ∈ Consensus.collect_votes validators ph1 ↔
      ∃ w, (vid, w) ∈ validators ∧ w.reputation > 3/4) ∧
    (Consensus.has_quorum validators
        (Consensus.collect_votes validators "prepare") = true →
      Consensus.has_quorum validators
        (Consensus.collect_votes validators "commit") = true) ∧
    (∀ leader, Consensus.select_pbft_leader validators = some leader →
      broadcastOk = true →
      Consensus.has_quorum validators
        (Consensus.collect_votes validators "prepare") = true →
      Consensus.pbft_algorithm validators broadcastOk = true) := by
  refine ⟨rfl, collect_votes_mem validators ph1 vid, fun h => h, ?_⟩
  intro leader hlead hb hq
  have hq2 : Consensus.has_quorum validators
      (Consensus.collect_votes validators "commit") = true := hq
  simp only [Consensus.pbft_algorithm, hlead, hb, hq2, hq]
  simp

/-- C10 witness: one active validator with reputation 0.9 and a
successful broadcast make the PBFT attempt finalize. -/
theorem C10_pbft_phase_equivalence_witness :
    Consensus.pbft_algorithm [("a", Examples.activeLeader)] true = true :=
  (C10_pbft_phase_equivalence [("a", Examples.activeLeader)] "prepare"
      "commit" "a" true).2.2.2 Examples.activeLeader
    (by
      have hrep : ((9:ℚ)/10 > 7/10) := by norm_num
      simp only [Consensus.select_pbft_leader, List.map, List.filter,
        Examples.activeLeader, decide_eq_true hrep]
      rfl)
    rfl
    (by
      have hvotes :
          Consensus.collect_votes [("a", Examples.activeLeader)] "prepare"
            = ["a"] := by
        simp only [Consensus.collect_votes, Examples.activeLeader, List.filter]
        norm_num
      rw [hvotes]
      simp only [Consensus.has_quorum, Consensus.requiredVotes]
      norm_num [Int.ceil_le])

/-- First metrics tick of the C7 scenario: `(90, 100, 0.4)` drives the
mode from the initial PoS to PoW. -/
theorem run_adaptive_stage1 :
    AIAdaptive.run_adaptive_logic (AIAdaptive.initState []) 90 100 (4/10)
      = ⟨Consensus.ConsensusMode.PoW, [90], [100], [4/10], []⟩ := by
  simp only [AIAdaptive.run_adaptive_logic, AIAdaptive.initState,
    AIAdaptive.collect_metrics, AIAdaptive.predict_best_consensus,
    AIAdaptive.nearestReliability, AIAdaptive.modeOfReliability,
    AIAdaptive.adjust_validators]
  norm_num
  simp

/-- Second metrics tick of the C7 scenario: `(60, 40, 0.75)` drives the
mode from PoW to PBFT. -/
theorem run_adaptive_stage2 :
    AIAdaptive.run_adaptive_logic
        ⟨Consensus.ConsensusMode.PoW, [90], [100], [4/10], []⟩ 60 40 (3/4)
      = ⟨Consensus.ConsensusMode.PBFT, [90, 60], [100, 40], [4/10, 3/4], []⟩ := by
  simp only [AIAdaptive.run_adaptive_logic,
    AIAdaptive.collect_metrics, AIAdaptive.predict_best_consensus,
    AIAdaptive.nearestReliability, AIAdaptive.nearestReliability.nearestLoad,
    AIAdaptive.modeOfReliability, AIAdaptive.adjust_validators]
  norm_num
  simp

/-- Third metrics tick of the C7 scenario: `(30, 20, 0.95)` drives the
mode from PBFT to PoS. -/
theorem run_adaptive_stage3 :
    AIAdaptive.run_adaptive_logic
        ⟨Consensus.ConsensusMode.PBFT, [90, 60], [100, 40], [4/10, 3/4], []⟩
        30 20 (95/100)
      = ⟨Consensus.ConsensusMode.PoS, [90, 60, 30], [100, 40, 20],
         [4/10, 3/4, 95/100], []⟩ := by
  simp only [AIAdaptive.run_adaptive_logic,
    AIAdaptive.collect_metrics, AIAdaptive.predict_best_consensus,
    AIAdaptive.nearestReliability, AIAdaptive.nearestReliability.nearestLoad,
    AIAdaptive.modeOfReliability, AIAdaptive.adjust_validators]
  norm_num
  simp

/-- C7: the recommended mode is PoW below predicted reliability 0.6,
PBFT from 0.6 up to (excluding) 0.8, PoS from 0.8, and the metrics
stream `(90,100,0.4)`, `(60,40,0.75)`, `(30,20,0.95)` drives the mode
through PoW, PBFT, PoS in that order (the reliability prediction of the
external collaborator is modelled, per the spec, as nearest-neighbour
regression over the load history). -/
theorem C7_mode_thresholds_and_scenario
    (st : AIAdaptive.MetricsState) (latest : ℚ)
    (hlast : st.network_load.getLast? = some latest) :
    (AIAdaptive.nearestReliability st.network_load st.reliability latest < 6/10 →
      AIAdaptive.predict_best_consensus st = Consensus.ConsensusMode.PoW) ∧
    (6/10 ≤ AIAdaptive.nearestReliability st.network_load st.reliability latest →
      AIAdaptive.nearestReliability st.network_load st.reliability latest < 8/10 →
      AIAdaptive.predict_best_consensus st = Consensus.ConsensusMode.PBFT) ∧
    (8/10 ≤ AIAdaptive.nearestReliability st.network_load st.reliability latest →
      AIAdaptive.predict_best_consensus st = Consensus.ConsensusMode.PoS) ∧
    (AIAdaptive.run_adaptive_logic (AIAdaptive.initState []) 90 100 (4/10)).consensus_mode
      = Consensus.ConsensusMode.PoW ∧
    (AIAdaptive.run_adaptive_logic
        (AIAdaptive.run_adaptive_logic (AIAdaptive.initState []) 90 100 (4/10))
        60 40 (3/4)).consensus_mode
      = Consensus.ConsensusMode.PBFT ∧
    (AIAdaptive.run_adaptive_logic
        (AIAdaptive.run_adaptive_logic
          (AIAdaptive.run_adaptive_logic (AIAdaptive.initState []) 90 100 (4/10))
          60 40 (3/4))
        30 20 (95/100)).consensus_mode
      = Consensus.ConsensusMode.PoS := by
  refine ⟨?_, ?_, ?_, ?_, ?_, ?_⟩
  · intro h
    simp only [AIAdaptive.predict_best_consensus, hlast,
      AIAdaptive.modeOfReliability]
    rw [if_pos h]
  · intro h1 h2
    simp only [AIAdaptive.predict_best_consensus, hlast,
      AIAdaptive.modeOfReliability]
    rw [if_neg (not_lt.mpr h1), if_pos h2]
  · intro h
    simp only [AIAdaptive.predict_best_consensus, hlast,
      AIAdaptive.modeOfReliability]
    rw [if_neg (not_lt.mpr (le_trans (by norm_num) h)),
      if_neg (not_lt.mpr h)]
  · rw [run_adaptive_stage1]
  · rw [run_adaptive_stage1, run_adaptive_stage2]
  · rw [run_adaptive_stage1, run_adaptive_stage2, run_adaptive_stage3]

/-- C7 witness: a one-sample history with reliability 0.5 predicts below
0.6 and recommends PoW. -/
theorem C7_mode_thresholds_witness :
    AIAdaptive.predict_best_consensus
        ⟨Consensus.ConsensusMode.PoS, [50], [10], [1/2], []⟩
      = Consensus.ConsensusMode.PoW :=
  (C7_mode_thresholds_and_scenario
      ⟨Consensus.ConsensusMode.PoS, [50], [10], [1/2], []⟩ 50 (by simp)).1
    (by norm_num [AIAdaptive.nearestReliability])

namespace Sharding

theorem rebalance_shards_conserves (decEnc : Transaction → Option Transaction)
    (hrt : ∀ tx tx', decEnc tx = some tx' → tx' = tx) (s t : Shard) :
    ((rebalance_shards decEnc s t).1.transactions : Multiset Transaction)
        + ((rebalance_shards decEnc s t).2.transactions : Multiset Transaction)
      = (s.transactions : Multiset Transaction) + (t.transactions : Multiset Transaction) ∧
    (rebalance_shards decEnc s t).1.shard_id = s.shard_id ∧
    (rebalance_shards decEnc s t).2.shard_id = t.shard_id := by
  cases hs : s.transactions with
  | nil => simp [rebalance_shards, hs]
  | cons tx rest =>
      cases hd : decEnc tx with
      | none => simp [rebalance_shards, hs, hd]
      | some dtx =>
          have hdtx : dtx = tx := hrt tx dtx hd
          subst hdtx
          refine ⟨?_, by simp [rebalance_shards, hs, hd], by simp [rebalance_shards, hs, hd]⟩
          simp only [rebalance_shards, hs, hd]
          rw [Multiset.coe_add, Multiset.coe_add, Multiset.coe_eq_coe,
            ← List.append_assoc]
          exact List.perm_append_singleton _ _

end Sharding
namespace Sharding

theorem updateShard_not_mem (sid : Nat) (s' : Shard) :
    ∀ (shards : List Shard), sid ∉ shards.map Shard.shard_id →
      updateShard shards sid s' = shards
  | [], _ => rfl
  | a :: rest, h => by
      simp only [List.map, List.mem_cons, not_or] at h
      simp only [updateShard, List.map]
      rw [if_neg (fun he => h.1 he.symm)]
      have := updateShard_not_mem sid s' rest (by
        intro hmem; exact h.2 hmem)
      simp only [updateShard] at this
      rw [this]

theorem poolOf_cons (a : Shard) (rest : List Shard) :
    poolOf (a :: rest) = (a.transactions : Multiset Transaction) + poolOf rest := rfl

theorem poolOf_updateShard (sid : Nat) (s' : Shard) :
    ∀ (shards : List Shard) (s : Shard),
      (shards.map Shard.shard_id).Nodup → findShard shards sid = some s →
      poolOf (updateShard shards sid s') + (s.transactions : Multiset Transaction)
        = poolOf shards + (s'.transactions : Multiset Transaction)
  | [], s, _, hf => by simp [findShard] at hf
  | a :: rest, s, hnd, hf => by
      simp only [List.map, List.nodup_cons] at hnd
      by_cases ha : a.shard_id = sid
      · have hsa : s = a := by
          simp only [findShard, List.find?] at hf
          rw [decide_eq_true ha] at hf
          exact (Option.some.inj hf).symm
        subst hsa
        simp only [updateShard, List.map, if_pos ha]
        have hrest : updateShard rest sid s' = rest := by
          apply updateShard_not_mem
          rw [← ha]
          exact hnd.1
        simp only [updateShard] at hrest
        rw [hrest, poolOf_cons, poolOf_cons]
        abel
      · have hf' : findShard rest sid = some s := by
          simp only [findShard, List.find?] at hf ⊢
          rw [decide_eq_false ha] at hf
          exact hf
        have ih := poolOf_updateShard sid s' rest s hnd.2 hf'
        simp only [updateShard, List.map, if_neg ha]
        rw [poolOf_cons, poolOf_cons]
        simp only [updateShard] at ih
        rw [add_assoc, ih, ← add_assoc]

end Sharding
namespace Sharding

theorem updateShard_map_id (sid : Nat) (s' : Shard) (hs' : s'.shard_id = sid) :
    ∀ (shards : List Shard),
      (updateShard shards sid s').map Shard.shard_id = shards.map Shard.shard_id
  | [] => rfl
  | a :: rest => by
      simp only [updateShard, List.map]
      have ih := updateShard_map_id sid s' hs' rest
      simp only [updateShard] at ih
      rw [ih]
      by_cases ha : a.shard_id = sid
      · rw [if_pos ha, hs', ha]
      · rw [if_neg ha]

theorem findShard_some_id :
    ∀ (shards : List Shard) (sid : Nat) (s : Shard),
      findShard shards sid = some s → s.shard_id = sid := by
  intro shards sid s h
  have := List.find?_some h
  exact of_decide_eq_true this

theorem findShard_updateShard_ne (sid tid : Nat) (s' : Shard)
    (hne : tid ≠ sid) (hs' : s'.shard_id = sid) :
    ∀ (shards : List Shard),
      findShard (updateShard shards sid s') tid = findShard shards tid
  | [] => rfl
  | a :: rest => by
      simp only [updateShard, findShard, List.find?, List.map]
      have ih := findShard_updateShard_ne sid tid s' hne hs' rest
      simp only [updateShard, findShard] at ih
      by_cases ha : a.shard_id = sid
      · have h1 : decide (s'.shard_id = tid) = false := by
          apply decide_eq_false
          rw [hs']
          exact fun he => hne he.symm
        have h2 : decide (a.shard_id = tid) = false := by
          apply decide_eq_false
          rw [ha]
          exact fun he => hne he.symm
        simp only [if_pos ha, h1, h2]
        exact ih
      · simp only [if_neg ha]
        cases hd : decide (a.shard_id = tid) with
        | true => simp only [hd]
        | false => simp only [hd]; exact ih

end Sharding
namespace Sharding

theorem poolOf_rebalanceModule (decEnc : Transaction → Option Transaction)
    (hrt : ∀ tx tx', decEnc tx = some tx' → tx' = tx)
    (shards : List Shard) (sid tid : Nat)
    (hids : (shards.map Shard.shard_id).Nodup) :
    poolOf (rebalanceModule decEnc shards sid tid) = poolOf shards ∧
    (rebalanceModule decEnc shards sid tid).map Shard.shard_id
      = shards.map Shard.shard_id := by
  by_cases hst : sid = tid
  · simp only [rebalanceModule, if_pos hst]
    exact ⟨trivial, trivial⟩
  · cases hfs : findShard shards sid with
    | none =>
        simp only [rebalanceModule, if_neg hst, hfs]
        exact ⟨trivial, trivial⟩
    | some s =>
        cases hft : findShard shards tid with
        | none =>
            simp only [rebalanceModule, if_neg hst, hfs, hft]
            exact ⟨trivial, trivial⟩
        | some t =>
            simp only [rebalanceModule, if_neg hst, hfs, hft]
            have hsid : s.shard_id = sid := findShard_some_id shards sid s hfs
            have htid : t.shard_id = tid := findShard_some_id shards tid t hft
            have hcons := rebalance_shards_conserves decEnc hrt s t
            have hp1id : (rebalance_shards decEnc s t).1.shard_id = sid :=
              hcons.2.1.trans hsid
            have hp2id : (rebalance_shards decEnc s t).2.shard_id = tid :=
              hcons.2.2.trans htid
            have e1 := poolOf_updateShard sid (rebalance_shards decEnc s t).1
              shards s hids hfs
            have mapA := updateShard_map_id sid (rebalance_shards decEnc s t).1
              hp1id shards
            have ndA : ((updateShard shards sid (rebalance_shards decEnc s t).1).map
                Shard.shard_id).Nodup := by
              rw [mapA]; exact hids
            have ftA : findShard (updateShard shards sid (rebalance_shards decEnc s t).1)
                tid = some t := by
              rw [findShard_updateShard_ne sid tid _ (fun h => hst h.symm) hp1id shards]
              exact hft
            have e2 := poolOf_updateShard tid (rebalance_shards decEnc s t).2
              (updateShard shards sid (rebalance_shards decEnc s t).1) t ndA ftA
            have mapB := updateShard_map_id tid (rebalance_shards decEnc s t).2
              hp2id (updateShard shards sid (rebalance_shards decEnc s t).1)
            constructor
            · have key : poolOf (updateShard (updateShard shards sid
                    (rebalance_shards decEnc s t).1) tid (rebalance_shards decEnc s t).2)
                  + ((t.transactions : Multiset Transaction) + (s.transactions : Multiset Transaction))
                  = poolOf shards
                  + ((t.transactions : Multiset Transaction) + (s.transactions : Multiset Transaction)) := by
                calc poolOf (updateShard (updateShard shards sid
                        (rebalance_shards decEnc s t).1) tid (rebalance_shards decEnc s t).2)
                      + ((t.transactions : Multiset Transaction) + (s.transactions : Multiset Transaction))
                    = (poolOf (updateShard (updateShard shards sid
                        (rebalance_shards decEnc s t).1) tid (rebalance_shards decEnc s t).2)
                      + (t.transactions : Multiset Transaction)) + (s.transactions : Multiset Transaction) := by
                      rw [add_assoc]
                  _ = (poolOf (updateShard shards sid (rebalance_shards decEnc s t).1)
                      + ((rebalance_shards decEnc s t).2.transactions : Multiset Transaction))
                      + (s.transactions : Multiset Transaction) := by rw [e2]
                  _ = (poolOf (updateShard shards sid (rebalance_shards decEnc s t).1)
                      + (s.transactions : Multiset Transaction))
                      + ((rebalance_shards decEnc s t).2.transactions : Multiset Transaction) := by
                      rw [add_assoc, add_comm ((rebalance_shards decEnc s t).2.transactions :
                        Multiset Transaction) (s.transactions : Multiset Transaction), ← add_assoc]
                  _ = (poolOf shards + ((rebalance_shards decEnc s t).1.transactions : Multiset Transaction))
                      + ((rebalance_shards decEnc s t).2.transactions : Multiset Transaction) := by rw [e1]
                  _ = poolOf shards + (((rebalance_shards decEnc s t).1.transactions : Multiset Transaction)
                      + ((rebalance_shards decEnc s t).2.transactions : Multiset Transaction)) := by
                      rw [add_assoc]
                  _ = poolOf shards + ((s.transactions : Multiset Transaction)
                      + (t.transactions : Multiset Transaction)) := by rw [hcons.1]
                  _ = poolOf shards + ((t.transactions : Multiset Transaction)
                      + (s.transactions : Multiset Transaction)) := by rw [add_comm
                        (s.transactions : Multiset Transaction) (t.transactions : Multiset Transaction)]
              exact add_right_cancel key
            · rw [mapB, mapA]

theorem poolOf_rebalanceSeq (decEnc : Transaction → Option Transaction)
    (hrt : ∀ tx tx', decEnc tx = some tx' → tx' = tx) :
    ∀ (moves : List (Nat × Nat)) (shards : List Shard),
      (shards.map Shard.shard_id).Nodup →
      poolOf (rebalanceSeq decEnc shards moves) = poolOf shards ∧
      (rebalanceSeq decEnc shards moves).map Shard.shard_id
        = shards.map Shard.shard_id
  | [], shards, _ => ⟨rfl, rfl⟩
  | mv :: rest, shards, hnd => by
      have h1 := poolOf_rebalanceModule decEnc hrt shards mv.1 mv.2 hnd
      have hnd' : ((rebalanceModule decEnc shards mv.1 mv.2).map Shard.shard_id).Nodup := by
        rw [h1.2]; exact hnd
      have ih := poolOf_rebalanceSeq decEnc hrt rest
        (rebalanceModule decEnc shards mv.1 mv.2) hnd'
      simp only [rebalanceSeq, List.foldl] at ih ⊢
      exact ⟨ih.1.trans h1.1, ih.2.trans h1.2⟩

end Sharding

/-- C4: no loss, no duplication during rebalancing.  Provided the cipher
round trip returns the transaction that was encrypted (as the crypto
crate round-trip test asserts) and shard ids are unique (they are
`HashMap` keys), every prefix of any sequence of module-level rebalance
moves leaves the multiset union of all shards' pending transactions
unchanged, and a transaction present exactly once globally stays present
exactly once — never dropped, never in two shards at once. -/
theorem C4_rebalance_multiset_preserved (decEnc : Transaction → Option Transaction)
    (shards : List Sharding.Shard) (moves : List (Nat × Nat))
    (hrt : ∀ tx tx', decEnc tx = some tx' → tx' = tx)
    (hids : (shards.map Sharding.Shard.shard_id).Nodup) :
    (∀ pre, pre <+: moves →
      Sharding.poolOf (Sharding.rebalanceSeq decEnc shards pre)
        = Sharding.poolOf shards) ∧
    (∀ tx, (Sharding.poolOf shards).count tx ≤ 1 →
      ∀ pre, pre <+: moves →
        (Sharding.poolOf (Sharding.rebalanceSeq decEnc shards pre)).count tx ≤ 1) := by
  have main : ∀ pre, Sharding.poolOf (Sharding.rebalanceSeq decEnc shards pre)
      = Sharding.poolOf shards :=
    fun pre => (Sharding.poolOf_rebalanceSeq decEnc hrt pre shards hids).1
  exact ⟨fun pre _ => main pre, fun tx hc pre _ => by rw [main pre]; exact hc⟩

/-- C4 witness: one successful move between two concrete shards
preserves the pool and keeps the moved transaction unique. -/
theorem C4_rebalance_multiset_preserved_witness :
    Sharding.poolOf (Sharding.rebalanceSeq Examples.idCipher
        [Examples.srcShard, Examples.tgtShard] [(0, 1)])
      = Sharding.poolOf [Examples.srcShard, Examples.tgtShard] ∧
    (Sharding.poolOf (Sharding.rebalanceSeq Examples.idCipher
        [Examples.srcShard, Examples.tgtShard] [(0, 1)])).count Examples.txA ≤ 1 :=
  have h := C4_rebalance_multiset_preserved Examples.idCipher [Examples.srcShard, Examples.tgtShard]
    [(0, 1)] (fun tx tx' hx => (Option.some.inj hx).symm) (by decide)
  ⟨h.1 [(0, 1)] (List.prefix_refl _),
   h.2 Examples.txA (by decide) [(0, 1)] (List.prefix_refl _)⟩

namespace Sharding

theorem foldl_min_zeros : ∀ (l : List Nat), (∀ x ∈ l, x = 0) →
    List.foldl Nat.min 0 l = 0
  | [], _ => rfl
  | x :: xs, h => by
      have hx : x = 0 := h x (List.mem_cons_self _ _)
      simp only [List.foldl, hx, Nat.min_self]
      exact foldl_min_zeros xs (fun y hy => h y (List.mem_cons_of_mem _ hy))

theorem minLoad_all_zero (s0 : Shard) (ss : List Shard)
    (h0 : s0.load = 0) (hs : ∀ s ∈ ss, s.load = 0) :
    minLoad (s0 :: ss) = 0 := by
  simp only [minLoad, List.map]
  rw [h0]
  exact foldl_min_zeros _ (fun x hx => by
    rcases List.mem_map.mp hx with ⟨s, hsm, rfl⟩
    exact hs s hsm)

theorem minLoad_head_arbitrary (s0 s1 : Shard) (rest : List Shard)
    (h1 : s1.load = 0) (hr : ∀ s ∈ rest, s.load = 0) :
    minLoad (s0 :: s1 :: rest) = 0 := by
  simp only [minLoad, List.map, List.foldl]
  rw [h1]
  have hm : s0.load.min 0 = 0 := by
    cases s0.load with
    | zero => rfl
    | succ k => rfl
  rw [hm]
  exact foldl_min_zeros _ (fun x hx => by
    rcases List.mem_map.mp hx with ⟨s, hsm, rfl⟩
    exact hr s hsm)

theorem map_assign_not_mem (sid : Nat) (tx : Transaction) :
    ∀ (ss : List Shard), sid ∉ ss.map Shard.shard_id →
      (ss.map fun s => if s.shard_id = sid then pushTx s tx else s) = ss
  | [], _ => rfl
  | a :: rest, h => by
      simp only [List.map, List.mem_cons, not_or] at h
      simp only [List.map]
      rw [if_neg (fun he => h.1 he.symm),
        map_assign_not_mem sid tx rest (fun hmem => h.2 hmem)]

end Sharding

/-- C9 (amended): assignment selects a shard of minimum load, but the
tie-break is the first such shard in the `HashMap`'s unspecified
iteration order, not the lowest `shard_id`.  For any iteration order of
two-or-more empty shards with distinct ids, assigning two transactions
places them on the first two shards of that order — two distinct
shards, each ending with exactly that transaction and `load = 1`. -/
theorem C9_amended_min_load_assignment (s0 s1 : Sharding.Shard) (rest : List Sharding.Shard)
    (tx1 tx2 : Transaction)
    (hempty : ∀ s ∈ s0 :: s1 :: rest, s.transactions = [] ∧ s.load = 0)
    (hids : ((s0 :: s1 :: rest).map Sharding.Shard.shard_id).Nodup) :
    (Sharding.assign_transaction (s0 :: s1 :: rest) tx1).bind
        (fun ss => Sharding.assign_transaction ss tx2)
      = some (Sharding.pushTx s0 tx1 :: Sharding.pushTx s1 tx2 :: rest) ∧
    s0.shard_id ≠ s1.shard_id ∧
    (Sharding.pushTx s0 tx1).load = 1 ∧ (Sharding.pushTx s1 tx2).load = 1 ∧
    (Sharding.pushTx s0 tx1).transactions = [tx1] ∧
    (Sharding.pushTx s1 tx2).transactions = [tx2] := by
  have h0 := hempty s0 (List.mem_cons_self _ _)
  have h1 := hempty s1 (List.mem_cons_of_mem _ (List.mem_cons_self _ _))
  have hr : ∀ s ∈ rest, s.transactions = [] ∧ s.load = 0 :=
    fun s hs => hempty s (List.mem_cons_of_mem _ (List.mem_cons_of_mem _ hs))
  simp only [List.map, List.nodup_cons, List.mem_cons, not_or] at hids
  have hne01 : s0.shard_id ≠ s1.shard_id := hids.1.1
  have h0nr : s0.shard_id ∉ rest.map Sharding.Shard.shard_id := hids.1.2
  have h1nr : s1.shard_id ∉ rest.map Sharding.Shard.shard_id := hids.2.1
  -- first assignment
  have hmin1 : Sharding.minLoad (s0 :: s1 :: rest) = 0 :=
    Sharding.minLoad_all_zero s0 (s1 :: rest) h0.2 (fun s hs => by
      rcases List.mem_cons.mp hs with rfl | hs'
      · exact h1.2
      · exact (hr s hs').2)
  have hpred1 : Sharding.predict_least_loaded_shard (s0 :: s1 :: rest)
      = some s0.shard_id := by
    simp only [Sharding.predict_least_loaded_shard, hmin1, List.find?,
      decide_eq_true h0.2]
    rfl
  have hne10 : ¬ (s1.shard_id = s0.shard_id) := fun he => hne01 he.symm
  have hassign1 : Sharding.assign_transaction (s0 :: s1 :: rest) tx1
      = some (Sharding.pushTx s0 tx1 :: s1 :: rest) := by
    simp only [Sharding.assign_transaction, hpred1, List.map, if_pos rfl,
      if_true, if_neg hne10,
      Sharding.map_assign_not_mem s0.shard_id tx1 rest h0nr]
  -- second assignment
  have hload0' : (Sharding.pushTx s0 tx1).load = 1 := by
    simp [Sharding.pushTx, h0.2]
  have hmin2 : Sharding.minLoad (Sharding.pushTx s0 tx1 :: s1 :: rest) = 0 :=
    Sharding.minLoad_head_arbitrary _ s1 rest h1.2 (fun s hs => (hr s hs).2)
  have hpred2 : Sharding.predict_least_loaded_shard
      (Sharding.pushTx s0 tx1 :: s1 :: rest) = some s1.shard_id := by
    have hd1 : decide ((Sharding.pushTx s0 tx1).load = 0) = false := by
      rw [hload0']
      decide
    simp only [Sharding.predict_least_loaded_shard, hmin2, List.find?, hd1,
      decide_eq_true h1.2]
    rfl
  have hassign2 : Sharding.assign_transaction
      (Sharding.pushTx s0 tx1 :: s1 :: rest) tx2
      = some (Sharding.pushTx s0 tx1 :: Sharding.pushTx s1 tx2 :: rest) := by
    have hid0 : (Sharding.pushTx s0 tx1).shard_id = s0.shard_id := rfl
    simp only [Sharding.assign_transaction, hpred2, List.map, hid0,
      if_neg hne01, if_pos rfl, if_true,
      Sharding.map_assign_not_mem s1.shard_id tx2 rest h1nr]
  refine ⟨?_, hne01, hload0', by simp [Sharding.pushTx, h1.2], by
    simp [Sharding.pushTx, h0.1], by simp [Sharding.pushTx, h1.1]⟩
  rw [hassign1]
  exact hassign2

/-- C9 witness: four empty shards in iteration order `[3, 2, 1, 0]`
receive the two transactions on shards 3 and 2 — two distinct shards,
each with load 1. -/
theorem C9_amended_min_load_assignment_witness :
    (Sharding.assign_transaction
        [Examples.emptyShard 3, Examples.emptyShard 2,
         Examples.emptyShard 1, Examples.emptyShard 0] Examples.txA).bind
        (fun ss => Sharding.assign_transaction ss Examples.txB)
      = some (Sharding.pushTx (Examples.emptyShard 3) Examples.txA ::
          Sharding.pushTx (Examples.emptyShard 2) Examples.txB ::
          [Examples.emptyShard 1, Examples.emptyShard 0]) ∧
    (Examples.emptyShard 3).shard_id ≠ (Examples.emptyShard 2).shard_id ∧
    (Sharding.pushTx (Examples.emptyShard 3) Examples.txA).load = 1 ∧
    (Sharding.pushTx (Examples.emptyShard 2) Examples.txB).load = 1 ∧
    (Sharding.pushTx (Examples.emptyShard 3) Examples.txA).transactions
      = [Examples.txA] ∧
    (Sharding.pushTx (Examples.emptyShard 2) Examples.txB).transactions
      = [Examples.txB] :=
  C9_amended_min_load_assignment (Examples.emptyShard 3)
    (Examples.emptyShard 2) [Examples.emptyShard 1, Examples.emptyShard 0]
    Examples.txA Examples.txB (by decide) (by decide)

end BLEEP
